import Mathlib

/-!
Shallow embedding of `render_views.py` (streamxr): the look-at matrix
builder, the bounding-volume estimator, the spherical camera trajectory
generator, and the render-and-export loop, over exact real arithmetic.
Floating-point values are modelled as real numbers; numpy vector operations
are modelled componentwise on a three-component structure.
-/

namespace StreamXR

/-- A 3-component vector, modelling a numpy array of shape (3,). -/
structure Vec3 where
  x : ℝ
  y : ℝ
  z : ℝ

/-- The zero vector. -/
def Vec3.zero : Vec3 := ⟨0, 0, 0⟩

/-- Componentwise addition, modelling numpy `+` on shape-(3,) arrays. -/
def Vec3.add (a b : Vec3) : Vec3 := ⟨a.x + b.x, a.y + b.y, a.z + b.z⟩

/-- Componentwise subtraction, modelling numpy `-` on shape-(3,) arrays. -/
def Vec3.sub (a b : Vec3) : Vec3 := ⟨a.x - b.x, a.y - b.y, a.z - b.z⟩

/-- Componentwise negation, modelling numpy unary `-`. -/
def Vec3.neg (a : Vec3) : Vec3 := ⟨-a.x, -a.y, -a.z⟩

/-- Division of a vector by a scalar, modelling numpy `v / c`. -/
noncomputable def Vec3.div (a : Vec3) (c : ℝ) : Vec3 := ⟨a.x / c, a.y / c, a.z / c⟩

/-- Dot product. -/
def Vec3.dot (a b : Vec3) : ℝ := a.x * b.x + a.y * b.y + a.z * b.z

/-- Cross product, modelling `np.cross`. -/
def Vec3.cross (a b : Vec3) : Vec3 :=
  ⟨a.y * b.z - a.z * b.y, a.z * b.x - a.x * b.z, a.x * b.y - a.y * b.x⟩

/-- Euclidean norm, modelling `np.linalg.norm`. -/
noncomputable def Vec3.norm (a : Vec3) : ℝ := Real.sqrt (a.dot a)

/-- Normalization `v / np.linalg.norm(v)` as it appears in `look_at`
(lines 19-23 of `render_views.py`). -/
noncomputable def Vec3.normalize (a : Vec3) : Vec3 := a.div a.norm

/-- A 4x4 matrix with explicit entries, modelling the numpy array `m`
built by `look_at`; `mRC` is the entry at row R, column C. -/
structure Mat4 where
  m00 : ℝ
  m01 : ℝ
  m02 : ℝ
  m03 : ℝ
  m10 : ℝ
  m11 : ℝ
  m12 : ℝ
  m13 : ℝ
  m20 : ℝ
  m21 : ℝ
  m22 : ℝ
  m23 : ℝ
  m30 : ℝ
  m31 : ℝ
  m32 : ℝ
  m33 : ℝ

/-- Column 0 of the upper-left 3x3 block (`m[:3, 0]`). -/
def Mat4.col0 (m : Mat4) : Vec3 := ⟨m.m00, m.m10, m.m20⟩

/-- Column 1 of the upper-left 3x3 block (`m[:3, 1]`). -/
def Mat4.col1 (m : Mat4) : Vec3 := ⟨m.m01, m.m11, m.m21⟩

/-- Column 2 of the upper-left 3x3 block (`m[:3, 2]`). -/
def Mat4.col2 (m : Mat4) : Vec3 := ⟨m.m02, m.m12, m.m22⟩

/-- The translation column (`m[:3, 3]`). -/
def Mat4.trans (m : Mat4) : Vec3 := ⟨m.m03, m.m13, m.m23⟩

/-- Determinant of the upper-left 3x3 block, by cofactor expansion. -/
def Mat4.det3 (m : Mat4) : ℝ :=
  m.m00 * (m.m11 * m.m22 - m.m12 * m.m21)
    - m.m01 * (m.m10 * m.m22 - m.m12 * m.m20)
    + m.m02 * (m.m10 * m.m21 - m.m11 * m.m20)

/-- Row-major nested list of entries, modelling `m.tolist()`. -/
def Mat4.rows (m : Mat4) : List (List ℝ) :=
  [[m.m00, m.m01, m.m02, m.m03],
   [m.m10, m.m11, m.m12, m.m13],
   [m.m20, m.m21, m.m22, m.m23],
   [m.m30, m.m31, m.m32, m.m33]]

/-- `f = (target - eye) / norm(target - eye)` from `look_at`. -/
noncomputable def forwardVec (eye target : Vec3) : Vec3 := (target.sub eye).normalize

/-- `s = cross(f, up) / norm(cross(f, up))` from `look_at`. -/
noncomputable def rightVec (eye target up : Vec3) : Vec3 :=
  ((forwardVec eye target).cross up).normalize

/-- `u = cross(s, f)` from `look_at`. -/
noncomputable def trueUpVec (eye target up : Vec3) : Vec3 :=
  (rightVec eye target up).cross (forwardVec eye target)

/-- `look_at(eye, target, up)` from `render_views.py` lines 17-33: start
from the identity, write `s` into column 0, `u` into column 1, `-f` into
column 2, `eye` into column 3 (rows 0-2); the bottom row keeps `(0,0,0,1)`
from the identity. -/
noncomputable def look_at (eye target up : Vec3) : Mat4 :=
  ⟨(rightVec eye target up).x, (trueUpVec eye target up).x, -(forwardVec eye target).x, eye.x,
   (rightVec eye target up).y, (trueUpVec eye target up).y, -(forwardVec eye target).y, eye.y,
   (rightVec eye target up).z, (trueUpVec eye target up).z, -(forwardVec eye target).z, eye.z,
   0, 0, 0, 1⟩

/-- The bounding volume computed in `render_glb_views` lines 146-149:
a center point and a scalar diagonal size. -/
structure BoundingVolume where
  center : Vec3
  size : ℝ

/-- Componentwise minimum over a non-empty vertex list `v :: vs`,
modelling `mesh.bounds[0]` (trimesh's axis-aligned lower bound is the
componentwise minimum of the vertices). -/
noncomputable def boundsMin (v : Vec3) (vs : List Vec3) : Vec3 :=
  vs.foldl (fun a b => ⟨min a.x b.x, min a.y b.y, min a.z b.z⟩) v

/-- Componentwise maximum over a non-empty vertex list `v :: vs`,
modelling `mesh.bounds[1]`. -/
noncomputable def boundsMax (v : Vec3) (vs : List Vec3) : Vec3 :=
  vs.foldl (fun a b => ⟨max a.x b.x, max a.y b.y, max a.z b.z⟩) v

/-- The bounding-volume estimator, `render_glb_views` lines 146-148:
`center = (bounds[0] + bounds[1]) / 2`, `size = norm(bounds[1] - bounds[0])`. -/
noncomputable def estimate (v : Vec3) (vs : List Vec3) : BoundingVolume :=
  ⟨⟨((boundsMin v vs).x + (boundsMax v vs).x) / 2,
    ((boundsMin v vs).y + (boundsMax v vs).y) / 2,
    ((boundsMin v vs).z + (boundsMax v vs).z) / 2⟩,
   ((boundsMax v vs).sub (boundsMin v vs)).norm⟩

/-- `camera_distance = size * 2.0`, line 149. -/
def camera_distance (bv : BoundingVolume) : ℝ := bv.size * 2

/-- `theta = 2 * np.pi * i / num_views`, line 159. -/
noncomputable def theta (N i : ℕ) : ℝ := 2 * Real.pi * i / N

/-- `phi = np.pi / 4 + (np.pi / 8) * np.sin(3 * np.pi * i / num_views)`, line 160. -/
noncomputable def phi (N i : ℕ) : ℝ :=
  Real.pi / 4 + Real.pi / 8 * Real.sin (3 * Real.pi * i / N)

/-- `camera_pos = center + np.array([x, y, z])` with
`x = camera_distance * sin(phi) * cos(theta)`,
`y = camera_distance * sin(phi) * sin(theta)`,
`z = camera_distance * cos(phi)`, lines 163-168. -/
noncomputable def camera_pos (bv : BoundingVolume) (N i : ℕ) : Vec3 :=
  ⟨bv.center.x + camera_distance bv * Real.sin (phi N i) * Real.cos (theta N i),
   bv.center.y + camera_distance bv * Real.sin (phi N i) * Real.sin (theta N i),
   bv.center.z + camera_distance bv * Real.cos (phi N i)⟩

/-- `up_vector = np.array([0, 0, 1])`, line 171. -/
def up_vector : Vec3 := ⟨0, 0, 1⟩

/-- `camera_pose = look_at(camera_pos, center, up_vector)`, line 172. -/
noncomputable def camera_pose (bv : BoundingVolume) (N i : ℕ) : Mat4 :=
  look_at (camera_pos bv N i) bv.center up_vector

/-- The ordered sequence of (position, pose) pairs produced by the loop
`for i in range(num_views)`, lines 157-172. -/
noncomputable def trajectory (bv : BoundingVolume) (N : ℕ) : List (Vec3 × Mat4) :=
  (List.range N).map fun i => (camera_pos bv N i, camera_pose bv N i)

/-- Zero-padding of a frame index, modelling the Python format `f"{i:04d}"`:
the decimal digits of `i`, left-padded with zeros to a minimum width of 4. -/
def pad4 (i : ℕ) : String :=
  let s := toString i
  String.mk (List.replicate (4 - s.length) '0') ++ s

/-- The image file name `f"image_{i:04d}.png"` of frame `i`, line 182. -/
def imgName (i : ℕ) : String := "image_" ++ pad4 i ++ ".png"

/-- One manifest frame record, lines 187-190. -/
structure Frame where
  file_path : String
  transform_matrix : List (List ℝ)

/-- The manifest object `transforms_data`, line 200. -/
structure Manifest where
  camera_angle_x : ℝ
  frames : List Frame

/-- An observable file-system effect of the pipeline: writing an image
file with a given name, or writing the manifest file. -/
inductive Event where
  | image : String → Event
  | manifest : Manifest → Event

/-- The manifest record of frame `i`:
`{"file_path": f"./image_{i:04d}.png", "transform_matrix": camera_pose.tolist()}`,
lines 187-190. -/
noncomputable def frameRecord (bv : BoundingVolume) (N i : ℕ) : Frame :=
  ⟨"./" ++ imgName i, (camera_pose bv N i).rows⟩

/-- The render loop of `render_glb_views` (lines 157-197) over a list of
frame indices. `ok i` models whether rendering plus image persistence of
frame `i` succeeds; on success the image file is written and the manifest
record appended, on failure the run aborts (exception propagates) with no
further effects. Returns the emitted events, the accumulated `transforms`
list, and whether the loop ran to completion. -/
noncomputable def runLoop (bv : BoundingVolume) (N : ℕ) (ok : ℕ → Bool) :
    List ℕ → List Event × List Frame × Bool
  | [] => ([], [], true)
  | i :: rest =>
    if ok i then
      let r := runLoop bv N ok rest
      (Event.image (imgName i) :: r.1, frameRecord bv N i :: r.2.1, r.2.2)
    else ([], [], false)

/-- The observable effect trace of `render_glb_views` (lines 157-204) for a
given bounding volume: run the frame loop over `range num_views`; if and
only if every frame succeeded, write `transforms.json` once at the end with
`camera_angle_x = np.pi / 3.0` and the accumulated frame records. -/
noncomputable def render_glb_views (bv : BoundingVolume) (N : ℕ) (ok : ℕ → Bool) :
    List Event :=
  let r := runLoop bv N ok (List.range N)
  if r.2.2 then r.1 ++ [Event.manifest ⟨Real.pi / 3, r.2.1⟩] else r.1

/-- Grouping of a flat list into consecutive triples, modelling numpy's
`reshape(-1, 3)`: succeeds (with the rows as triples) exactly when the
length is divisible by 3, otherwise raises (returns `none`). -/
def chunk3 : List ℕ → Option (List (ℕ × ℕ × ℕ))
  | [] => some []
  | a :: b :: c :: rest => (chunk3 rest).map fun l => (a, b, c) :: l
  | _ => none

/-- The sequential-index fallback `np.arange(len(vertices)).reshape(-1, 3)`
of `load_glb_with_pygltflib`, lines 83 and 86. -/
def sequentialIndices (n : ℕ) : Option (List (ℕ × ℕ × ℕ)) := chunk3 (List.range n)

/-- The absent-position-buffer fallback `np.array([[0, 0, 0]])`, line 64:
a single vertex at the origin. -/
def fallbackVertices : List Vec3 := [⟨0, 0, 0⟩]

/-- The cube vertex list of the end-to-end example: 8 vertices spanning
`[-1,-1,-1]` to `[1,1,1]`, split as head vertex plus tail for the
non-empty bounds fold. -/
def cubeHead : Vec3 := ⟨-1, -1, -1⟩

/-- The remaining 7 cube vertices. -/
def cubeTail : List Vec3 :=
  [⟨1, -1, -1⟩, ⟨-1, 1, -1⟩, ⟨1, 1, -1⟩, ⟨-1, -1, 1⟩, ⟨1, -1, 1⟩, ⟨-1, 1, 1⟩, ⟨1, 1, 1⟩]

/-- `a` is within the spec's numerical tolerance `1e-5` of `b`. -/
def near (a b : ℝ) : Prop := |a - b| ≤ 1e-5

/-- Exact orthonormality with determinant `+1` of the upper-left 3x3 block:
columns unit length, pairwise orthogonal, determinant one. -/
def Mat4.orthonormal3 (m : Mat4) : Prop :=
  m.col0.dot m.col0 = 1 ∧ m.col1.dot m.col1 = 1 ∧ m.col2.dot m.col2 = 1 ∧
  m.col0.dot m.col1 = 0 ∧ m.col0.dot m.col2 = 0 ∧ m.col1.dot m.col2 = 0 ∧
  m.det3 = 1

/-- Orthonormality of the upper-left 3x3 block up to the spec's `1e-5`
tolerance. -/
def Mat4.orthonormal3Tol (m : Mat4) : Prop :=
  near (m.col0.dot m.col0) 1 ∧ near (m.col1.dot m.col1) 1 ∧ near (m.col2.dot m.col2) 1 ∧
  near (m.col0.dot m.col1) 0 ∧ near (m.col0.dot m.col2) 0 ∧ near (m.col1.dot m.col2) 0 ∧
  near m.det3 1

/-- The azimuth exactly as the spec states it: `azimuth(i) = 2π·i/viewCount`. -/
noncomputable def specAzimuth (N i : ℕ) : ℝ := 2 * Real.pi * i / N

/-- The elevation exactly as the spec states it:
`elevation(i) = π/4 + (π/8)·sin(3π·i/viewCount)`. -/
noncomputable def specElevation (N i : ℕ) : ℝ :=
  Real.pi / 4 + Real.pi / 8 * Real.sin (3 * Real.pi * i / N)

/-- The camera position exactly as the spec states it:
`center + d·(sin(elevation)·cos(azimuth), sin(elevation)·sin(azimuth), cos(elevation))`
with `d = 2·extentSize`. Written from the spec's words, to be compared with
the source-derived `camera_pos`. -/
noncomputable def specCameraPosition (c : Vec3) (s : ℝ) (N i : ℕ) : Vec3 :=
  ⟨c.x + 2 * s * (Real.sin (specElevation N i) * Real.cos (specAzimuth N i)),
   c.y + 2 * s * (Real.sin (specElevation N i) * Real.sin (specAzimuth N i)),
   c.z + 2 * s * Real.cos (specElevation N i)⟩

end StreamXR

namespace StreamXR

/-! General lemmas about the vector operations. -/

/-- The dot product of a vector with itself is nonnegative. -/
theorem Vec3.dot_self_nonneg (v : Vec3) : 0 ≤ v.dot v := by
  have := mul_self_nonneg v.x
  have := mul_self_nonneg v.y
  have := mul_self_nonneg v.z
  simp only [Vec3.dot]
  linarith

/-- The dot product of a nonzero vector with itself is positive. -/
theorem Vec3.dot_self_pos (v : Vec3) (h : v ≠ Vec3.zero) : 0 < v.dot v := by
  rcases (Vec3.dot_self_nonneg v).lt_or_eq with hlt | heq
  · exact hlt
  · exfalso
    apply h
    have hx : v.x = 0 := by
      have h1 : v.x * v.x ≤ 0 := by
        have := mul_self_nonneg v.y
        have := mul_self_nonneg v.z
        simp only [Vec3.dot] at heq
        linarith
      exact mul_self_eq_zero.mp (le_antisymm h1 (mul_self_nonneg v.x))
    have hy : v.y = 0 := by
      have h1 : v.y * v.y ≤ 0 := by
        have := mul_self_nonneg v.x
        have := mul_self_nonneg v.z
        simp only [Vec3.dot] at heq
        linarith
      exact mul_self_eq_zero.mp (le_antisymm h1 (mul_self_nonneg v.y))
    have hz : v.z = 0 := by
      have h1 : v.z * v.z ≤ 0 := by
        have := mul_self_nonneg v.x
        have := mul_self_nonneg v.y
        simp only [Vec3.dot] at heq
        linarith
      exact mul_self_eq_zero.mp (le_antisymm h1 (mul_self_nonneg v.z))
    have : Vec3.mk v.x v.y v.z = Vec3.zero := by
      rw [hx, hy, hz]
      rfl
    exact this

/-- A normalized nonzero vector is a unit vector. -/
theorem Vec3.normalize_dot_self (v : Vec3) (h : v ≠ Vec3.zero) :
    v.normalize.dot v.normalize = 1 := by
  have hp := Vec3.dot_self_pos v h
  have hs : v.norm ≠ 0 := by
    rw [Vec3.norm]
    exact ne_of_gt (Real.sqrt_pos.mpr hp)
  have key : v.norm * v.norm = v.dot v := Real.mul_self_sqrt hp.le
  simp only [Vec3.normalize, Vec3.div, Vec3.dot] at key ⊢
  field_simp
  nlinarith [key]

/-- Normalization scales a dot product by the reciprocal norm. -/
theorem Vec3.normalize_dot_left (v w : Vec3) :
    v.normalize.dot w = v.dot w / v.norm := by
  simp only [Vec3.normalize, Vec3.div, Vec3.dot]
  ring_nf

/-- A cross product is orthogonal to its first factor. -/
theorem Vec3.cross_dot_left (a b : Vec3) : (a.cross b).dot a = 0 := by
  simp only [Vec3.cross, Vec3.dot]
  ring

/-- A cross product is orthogonal to its second factor. -/
theorem Vec3.cross_dot_right (a b : Vec3) : (a.cross b).dot b = 0 := by
  simp only [Vec3.cross, Vec3.dot]
  ring

/-- Lagrange identity for the squared norm of a cross product. -/
theorem Vec3.cross_dot_cross (a b : Vec3) :
    (a.cross b).dot (a.cross b) = a.dot a * b.dot b - a.dot b * (a.dot b) := by
  simp only [Vec3.cross, Vec3.dot]
  ring

/-- Componentwise subtraction yields zero exactly on equal vectors. -/
theorem Vec3.sub_eq_zero_iff (a b : Vec3) : a.sub b = Vec3.zero ↔ a = b := by
  cases a; cases b
  simp only [Vec3.sub, Vec3.zero, Vec3.mk.injEq]
  constructor
  · rintro ⟨h1, h2, h3⟩; exact ⟨by linarith, by linarith, by linarith⟩
  · rintro ⟨h1, h2, h3⟩; exact ⟨by linarith, by linarith, by linarith⟩

/-- The dot product is commutative. -/
theorem Vec3.dot_comm (a b : Vec3) : a.dot b = b.dot a := by
  simp only [Vec3.dot]
  ring

/-- Dotting with a negated vector negates the dot product. -/
theorem Vec3.dot_neg_right (a b : Vec3) : a.dot b.neg = -(a.dot b) := by
  simp only [Vec3.dot, Vec3.neg]
  ring

/-- Negation preserves the squared norm. -/
theorem Vec3.neg_dot_neg (a : Vec3) : a.neg.dot a.neg = a.dot a := by
  simp only [Vec3.dot, Vec3.neg]
  ring

/-- The 3x3 determinant of a look-at matrix in terms of dot products of its
right and forward vectors. -/
theorem look_at_det3_eq (eye target up : Vec3) :
    (look_at eye target up).det3 =
      (rightVec eye target up).dot (rightVec eye target up)
        * ((forwardVec eye target).dot (forwardVec eye target))
        - ((rightVec eye target up).dot (forwardVec eye target)) ^ 2 := by
  simp only [look_at, Mat4.det3, trueUpVec, Vec3.cross, Vec3.dot]
  ring

/-! Claim theorems. -/

/-- Claim C2: for every eye, target, up with target distinct from eye and up
not parallel to the viewing direction, `look_at` returns the 4x4 matrix whose
rotation columns are `[right, trueUp, -forward]` with
`forward = normalize(target - eye)`, `right = normalize(cross(forward, up))`,
`trueUp = cross(right, forward)`, whose translation column is `eye`, and whose
bottom row is `(0, 0, 0, 1)`. -/
theorem claim2_look_at_columns (eye target up : Vec3) (h1 : target ≠ eye)
    (h2 : (forwardVec eye target).cross up ≠ Vec3.zero) :
    (look_at eye target up).col0 = ((target.sub eye).normalize.cross up).normalize
    ∧ (look_at eye target up).col1 =
        (((target.sub eye).normalize.cross up).normalize).cross (target.sub eye).normalize
    ∧ (look_at eye target up).col2 = ((target.sub eye).normalize).neg
    ∧ (look_at eye target up).trans = eye
    ∧ (look_at eye target up).m30 = 0 ∧ (look_at eye target up).m31 = 0
    ∧ (look_at eye target up).m32 = 0 ∧ (look_at eye target up).m33 = 1 :=
  ⟨rfl, rfl, rfl, rfl, rfl, rfl, rfl, rfl⟩

/-- Claim C3: every look-at matrix built under the preconditions has an
upper-left 3x3 block whose columns are exactly unit length and pairwise
orthogonal with determinant exactly `+1`; in particular all of these hold
within the spec's `1e-5` tolerance. -/
theorem claim3_orthonormal (eye target up : Vec3) (h1 : target ≠ eye)
    (h2 : (forwardVec eye target).cross up ≠ Vec3.zero) :
    (look_at eye target up).orthonormal3 ∧ (look_at eye target up).orthonormal3Tol := by
  have hf0 : target.sub eye ≠ Vec3.zero := fun hc => h1 ((Vec3.sub_eq_zero_iff target eye).mp hc)
  have hf : (forwardVec eye target).dot (forwardVec eye target) = 1 :=
    Vec3.normalize_dot_self _ hf0
  have hs : (rightVec eye target up).dot (rightVec eye target up) = 1 :=
    Vec3.normalize_dot_self _ h2
  have hsf : (rightVec eye target up).dot (forwardVec eye target) = 0 := by
    rw [rightVec, Vec3.normalize_dot_left, Vec3.cross_dot_left, zero_div]
  have e1 : (look_at eye target up).col0.dot (look_at eye target up).col0 = 1 := hs
  have e2 : (look_at eye target up).col1.dot (look_at eye target up).col1 = 1 := by
    show (trueUpVec eye target up).dot (trueUpVec eye target up) = 1
    rw [trueUpVec, Vec3.cross_dot_cross, hs, hf, hsf]
    ring
  have e3 : (look_at eye target up).col2.dot (look_at eye target up).col2 = 1 := by
    show ((forwardVec eye target).neg).dot ((forwardVec eye target).neg) = 1
    rw [Vec3.neg_dot_neg, hf]
  have e4 : (look_at eye target up).col0.dot (look_at eye target up).col1 = 0 := by
    show (rightVec eye target up).dot (trueUpVec eye target up) = 0
    rw [trueUpVec, Vec3.dot_comm, Vec3.cross_dot_left]
  have e5 : (look_at eye target up).col0.dot (look_at eye target up).col2 = 0 := by
    show (rightVec eye target up).dot ((forwardVec eye target).neg) = 0
    rw [Vec3.dot_neg_right, hsf, neg_zero]
  have e6 : (look_at eye target up).col1.dot (look_at eye target up).col2 = 0 := by
    show (trueUpVec eye target up).dot ((forwardVec eye target).neg) = 0
    rw [Vec3.dot_neg_right, trueUpVec, Vec3.cross_dot_right, neg_zero]
  have e7 : (look_at eye target up).det3 = 1 := by
    rw [look_at_det3_eq, hs, hf, hsf]
    norm_num
  refine ⟨⟨e1, e2, e3, e4, e5, e6, e7⟩, ?_, ?_, ?_, ?_, ?_, ?_, ?_⟩ <;>
    simp only [near, e1, e2, e3, e4, e5, e6, e7] <;> norm_num

/-- The cross product in `look_at` is nonzero for the concrete inputs
eye at the origin, target on the x-axis, up along z. -/
theorem unitCross_ne_zero :
    (forwardVec ⟨0, 0, 0⟩ ⟨1, 0, 0⟩).cross ⟨0, 0, 1⟩ ≠ Vec3.zero := by
  have hc : (forwardVec ⟨0, 0, 0⟩ ⟨1, 0, 0⟩).cross ⟨0, 0, 1⟩ = ⟨0, -1, 0⟩ := by
    simp only [forwardVec, Vec3.normalize, Vec3.sub, Vec3.norm, Vec3.dot, Vec3.div, Vec3.cross]
    norm_num
  rw [hc]
  intro hz
  simp only [Vec3.zero, Vec3.mk.injEq] at hz
  norm_num at hz

/-- A concrete target distinct from a concrete eye. -/
theorem unitTarget_ne : (⟨1, 0, 0⟩ : Vec3) ≠ ⟨0, 0, 0⟩ := by
  intro hz
  rw [Vec3.mk.injEq] at hz
  norm_num at hz

/-- Claim C2, witness: the column decomposition evaluated at eye origin,
target on the x-axis, up along z, with both preconditions discharged. -/
theorem claim2_look_at_columns_app :
    ((⟨1, 0, 0⟩ : Vec3) ≠ ⟨0, 0, 0⟩
      ∧ (forwardVec ⟨0, 0, 0⟩ ⟨1, 0, 0⟩).cross ⟨0, 0, 1⟩ ≠ Vec3.zero)
    ∧ ((look_at ⟨0, 0, 0⟩ ⟨1, 0, 0⟩ ⟨0, 0, 1⟩).col0 =
        (((⟨1, 0, 0⟩ : Vec3).sub ⟨0, 0, 0⟩).normalize.cross ⟨0, 0, 1⟩).normalize
      ∧ (look_at ⟨0, 0, 0⟩ ⟨1, 0, 0⟩ ⟨0, 0, 1⟩).trans = ⟨0, 0, 0⟩) := by
  have h := claim2_look_at_columns ⟨0, 0, 0⟩ ⟨1, 0, 0⟩ ⟨0, 0, 1⟩ unitTarget_ne unitCross_ne_zero
  exact ⟨⟨unitTarget_ne, unitCross_ne_zero⟩, h.1, h.2.2.2.1⟩

/-- Claim C3, witness: orthonormality of the pose built at eye origin, target
on the x-axis, up along z, with both preconditions discharged. -/
theorem claim3_orthonormal_app :
    ((⟨1, 0, 0⟩ : Vec3) ≠ ⟨0, 0, 0⟩
      ∧ (forwardVec ⟨0, 0, 0⟩ ⟨1, 0, 0⟩).cross ⟨0, 0, 1⟩ ≠ Vec3.zero)
    ∧ (look_at ⟨0, 0, 0⟩ ⟨1, 0, 0⟩ ⟨0, 0, 1⟩).orthonormal3
    ∧ (look_at ⟨0, 0, 0⟩ ⟨1, 0, 0⟩ ⟨0, 0, 1⟩).orthonormal3Tol :=
  ⟨⟨unitTarget_ne, unitCross_ne_zero⟩,
   claim3_orthonormal ⟨0, 0, 0⟩ ⟨1, 0, 0⟩ ⟨0, 0, 1⟩ unitTarget_ne unitCross_ne_zero⟩

/-- Claim C1: for every view count N > 0 and bounding volume with center c and
positive extent s, the trajectory is exactly the ordered sequence, over i in
0..N-1, of the spec's camera position (azimuth 2πi/N, elevation
π/4 + (π/8)·sin(3πi/N), distance 2s) paired with the look-at pose toward c
with up (0,0,1). -/
theorem claim1_trajectory (c : Vec3) (s : ℝ) (hs : 0 < s) (N : ℕ) (hN : 0 < N) :
    trajectory ⟨c, s⟩ N = (List.range N).map fun i =>
      (specCameraPosition c s N i, look_at (specCameraPosition c s N i) c ⟨0, 0, 1⟩) := by
  unfold trajectory
  apply List.map_congr_left
  intro i _
  have hpos : camera_pos ⟨c, s⟩ N i = specCameraPosition c s N i := by
    simp only [camera_pos, camera_distance, specCameraPosition, specAzimuth, specElevation,
      phi, theta]
    rw [Vec3.mk.injEq]
    refine ⟨by ring, by ring, by ring⟩
  rw [Prod.mk.injEq]
  refine ⟨hpos, ?_⟩
  rw [camera_pose, hpos]
  rfl

/-- Claim C1, witness: the trajectory formula evaluated at center the origin,
extent 1, view count 1. -/
theorem claim1_trajectory_app :
    ((0 : ℝ) < 1 ∧ 0 < 1)
    ∧ trajectory ⟨⟨0, 0, 0⟩, 1⟩ 1 = (List.range 1).map fun i =>
        (specCameraPosition ⟨0, 0, 0⟩ 1 1 i,
         look_at (specCameraPosition ⟨0, 0, 0⟩ 1 1 i) ⟨0, 0, 0⟩ ⟨0, 0, 1⟩) :=
  ⟨⟨one_pos, Nat.one_pos⟩, claim1_trajectory ⟨0, 0, 0⟩ 1 one_pos 1 Nat.one_pos⟩

/-- Claim C5 (amended): the elevation lies in the CLOSED interval
[π/8, 3π/8]; the open-interval version of the claim is refuted by
`claim5_strict_counterexample`. -/
theorem claim5_elevation_closed_bounds (N i : ℕ) (hN : 0 < N) (hi : i < N) :
    Real.pi / 8 ≤ phi N i ∧ phi N i ≤ 3 * Real.pi / 8 := by
  have h1 := Real.neg_one_le_sin (3 * Real.pi * i / N)
  have h2 := Real.sin_le_one (3 * Real.pi * i / N)
  have hp := Real.pi_pos
  unfold phi
  constructor <;> nlinarith

/-- Claim C5, counterexample: at N = 6, i = 1 (a valid index) the elevation
equals 3π/8 exactly, so it does not lie strictly inside (π/8, 3π/8). -/
theorem claim5_strict_counterexample :
    ((0 : ℕ) < 6 ∧ (1 : ℕ) < 6) ∧ phi 6 1 = 3 * Real.pi / 8
    ∧ ¬(Real.pi / 8 < phi 6 1 ∧ phi 6 1 < 3 * Real.pi / 8) := by
  have harg : 3 * Real.pi * ((1 : ℕ) : ℝ) / ((6 : ℕ) : ℝ) = Real.pi / 2 := by
    push_cast
    ring
  have hval : phi 6 1 = 3 * Real.pi / 8 := by
    unfold phi
    rw [harg, Real.sin_pi_div_two]
    ring
  refine ⟨⟨by norm_num, by norm_num⟩, hval, ?_⟩
  intro hcl
  rw [hval] at hcl
  exact lt_irrefl _ hcl.2

/-- Claim C5 (amended), witness: the closed bounds evaluated at N = 1, i = 0. -/
theorem claim5_elevation_closed_bounds_app :
    ((0 : ℕ) < 1 ∧ (0 : ℕ) < 1)
    ∧ (Real.pi / 8 ≤ phi 1 0 ∧ phi 1 0 ≤ 3 * Real.pi / 8) :=
  ⟨⟨Nat.one_pos, Nat.one_pos⟩, claim5_elevation_closed_bounds 1 0 Nat.one_pos Nat.one_pos⟩

/-- Claim C9: every generated camera position lies at Euclidean distance
exactly `camera_distance = 2 * extentSize` from the bounding-volume center,
for every view count and index. -/
theorem claim9_constant_radius (bv : BoundingVolume) (hsz : 0 ≤ bv.size) (N i : ℕ) :
    ((camera_pos bv N i).sub bv.center).norm = camera_distance bv
    ∧ camera_distance bv = 2 * bv.size := by
  have hθ := Real.sin_sq_add_cos_sq (theta N i)
  have hφ := Real.sin_sq_add_cos_sq (phi N i)
  constructor
  · have hdot : ((camera_pos bv N i).sub bv.center).dot ((camera_pos bv N i).sub bv.center)
        = (bv.size * 2) ^ 2 := by
      simp only [camera_pos, camera_distance, Vec3.sub, Vec3.dot]
      linear_combination ((bv.size * 2) ^ 2 * Real.sin (phi N i) ^ 2) * hθ
        + (bv.size * 2) ^ 2 * hφ
    rw [Vec3.norm, hdot, Real.sqrt_sq (by linarith), camera_distance]
  · rw [camera_distance]
    ring

/-- Claim C9, witness: the constant radius evaluated at center the origin,
extent 1, view count 1, index 0. -/
theorem claim9_constant_radius_app :
    (0 : ℝ) ≤ 1
    ∧ (((camera_pos ⟨⟨0, 0, 0⟩, 1⟩ 1 0).sub (⟨0, 0, 0⟩ : Vec3)).norm
          = camera_distance ⟨⟨0, 0, 0⟩, 1⟩
        ∧ camera_distance ⟨⟨0, 0, 0⟩, 1⟩ = 2 * 1) :=
  ⟨zero_le_one, claim9_constant_radius ⟨⟨0, 0, 0⟩, 1⟩ zero_le_one 1 0⟩

end StreamXR

namespace StreamXR

/-- The componentwise minimum over the 8 cube vertices. -/
theorem cube_boundsMin : boundsMin cubeHead cubeTail = ⟨-1, -1, -1⟩ := by
  simp only [boundsMin, cubeHead, cubeTail, List.foldl_cons, List.foldl_nil]
  rw [Vec3.mk.injEq]
  norm_num [min_def]

/-- The componentwise maximum over the 8 cube vertices. -/
theorem cube_boundsMax : boundsMax cubeHead cubeTail = ⟨1, 1, 1⟩ := by
  simp only [boundsMax, cubeHead, cubeTail, List.foldl_cons, List.foldl_nil]
  rw [Vec3.mk.injEq]
  norm_num [max_def]

/-- The estimated center of the cube is the origin. -/
theorem cube_center : (estimate cubeHead cubeTail).center = ⟨0, 0, 0⟩ := by
  simp only [estimate, cube_boundsMin, cube_boundsMax]
  rw [Vec3.mk.injEq]
  norm_num

/-- The estimated extent of the cube is the diagonal length sqrt 12. -/
theorem cube_size : (estimate cubeHead cubeTail).size = Real.sqrt 12 := by
  simp only [estimate, cube_boundsMin, cube_boundsMax, Vec3.sub, Vec3.norm, Vec3.dot]
  norm_num

/-- Claim C4: the bounding-volume estimator computes
`center = (min + max) / 2` componentwise and `extentSize = norm(max - min)`
on every non-empty vertex set, and on the 8-vertex cube spanning
`[-1,-1,-1]..[1,1,1]` it yields center `(0,0,0)`, extent `sqrt 12` (about
3.4641), camera distance `2*sqrt 12` (about 6.9282), and with view count 4,
frame 0 has azimuth 0, elevation π/4, and camera position
`(sqrt 24, 0, sqrt 24)` (about `(4.899, 0, 4.899)`). -/
theorem claim4_bounding_volume :
    (∀ v vs, (estimate v vs).center = ⟨((boundsMin v vs).x + (boundsMax v vs).x) / 2,
        ((boundsMin v vs).y + (boundsMax v vs).y) / 2,
        ((boundsMin v vs).z + (boundsMax v vs).z) / 2⟩
      ∧ (estimate v vs).size = ((boundsMax v vs).sub (boundsMin v vs)).norm)
    ∧ (estimate cubeHead cubeTail).center = ⟨0, 0, 0⟩
    ∧ (estimate cubeHead cubeTail).size = Real.sqrt 12
    ∧ near (estimate cubeHead cubeTail).size 3.4641
    ∧ camera_distance (estimate cubeHead cubeTail) = 2 * Real.sqrt 12
    ∧ near (camera_distance (estimate cubeHead cubeTail)) 6.9282
    ∧ theta 4 0 = 0
    ∧ phi 4 0 = Real.pi / 4
    ∧ camera_pos (estimate cubeHead cubeTail) 4 0 = ⟨Real.sqrt 24, 0, Real.sqrt 24⟩
    ∧ |Real.sqrt 24 - 4.899| ≤ 1e-4 := by
  have h12 : Real.sqrt 12 ^ 2 = 12 := Real.sq_sqrt (by norm_num)
  have h12n : (0 : ℝ) ≤ Real.sqrt 12 := Real.sqrt_nonneg _
  have h24 : Real.sqrt 24 ^ 2 = 24 := Real.sq_sqrt (by norm_num)
  have h24n : (0 : ℝ) ≤ Real.sqrt 24 := Real.sqrt_nonneg _
  have htheta : theta 4 0 = 0 := by
    simp [theta]
  have hphi : phi 4 0 = Real.pi / 4 := by
    simp [phi]
  have hmul : Real.sqrt 12 * Real.sqrt 2 = Real.sqrt 24 := by
    rw [← Real.sqrt_mul (by norm_num : (0 : ℝ) ≤ 12)]
    norm_num
  refine ⟨fun v vs => ⟨rfl, rfl⟩, cube_center, cube_size, ?_, ?_, ?_, htheta, hphi, ?_, ?_⟩
  · rw [near, cube_size, abs_le]
    constructor <;> nlinarith [h12, h12n]
  · rw [camera_distance, cube_size]
    ring
  · rw [near, camera_distance, cube_size, abs_le]
    constructor <;> nlinarith [h12, h12n]
  · simp only [camera_pos, camera_distance, cube_size, cube_center, htheta, hphi]
    rw [Real.sin_pi_div_four, Real.cos_pi_div_four, Real.cos_zero, Real.sin_zero]
    rw [Vec3.mk.injEq]
    refine ⟨?_, by ring, ?_⟩
    · rw [← hmul]
      ring
    · rw [← hmul]
      ring
  · rw [abs_le]
    constructor <;> nlinarith [h24, h24n]

/-- The render loop with an always-succeeding renderer emits one image event
per index and accumulates one frame record per index, completing normally. -/
theorem runLoop_all_true (bv : BoundingVolume) (N : ℕ) (l : List ℕ) :
    runLoop bv N (fun _ => true) l =
      (l.map fun i => Event.image (imgName i), l.map fun i => frameRecord bv N i, true) := by
  induction l with
  | nil => rfl
  | cons a t ih => simp [runLoop, ih]

/-- Claim C7: on a successful run with view count N the effect trace is the N
image writes, in index order, followed by exactly one manifest write whose
manifest has `camera_angle_x = π/3` and exactly N frame records in ascending
index order, each with `file_path = "./image_<zero-padded index>.png"`
matching the written image file and `transform_matrix` the row-major 4x4
camera-to-world pose of that frame. -/
theorem claim7_manifest (bv : BoundingVolume) (N : ℕ) :
    render_glb_views bv N (fun _ => true)
      = ((List.range N).map fun i => Event.image (imgName i))
        ++ [Event.manifest ⟨Real.pi / 3, (List.range N).map fun i => frameRecord bv N i⟩]
    ∧ (∀ i, frameRecord bv N i
        = ⟨"./" ++ ("image_" ++ pad4 i ++ ".png"), (camera_pose bv N i).rows⟩)
    ∧ pad4 3 = "0003" ∧ pad4 42 = "0042" ∧ pad4 12345 = "12345" := by
  refine ⟨?_, fun i => rfl, rfl, rfl, rfl⟩
  simp [render_glb_views, runLoop_all_true]

/-- The render loop over a list whose prefix succeeds and whose next frame
fails emits exactly the prefix image writes and aborts. -/
theorem runLoop_append_fail (bv : BoundingVolume) (N : ℕ) (ok : ℕ → Bool)
    (l1 : List ℕ) (i : ℕ) (l2 : List ℕ)
    (h1 : ∀ j ∈ l1, ok j = true) (h2 : ok i = false) :
    runLoop bv N ok (l1 ++ i :: l2) =
      (l1.map fun j => Event.image (imgName j), l1.map fun j => frameRecord bv N j, false) := by
  induction l1 with
  | nil => simp [runLoop, h2]
  | cons a t ih =>
    have ha : ok a = true := h1 a (by simp)
    simp [runLoop, ha, ih fun j hj => h1 j (by simp [hj])]

/-- Splitting `range N` at an index `i < N`. -/
theorem range_split (N i : ℕ) (h : i < N) :
    List.range N = List.range i ++ i :: List.range' (i + 1) (N - i - 1) := by
  have h1 := List.range'_append 0 i (N - i) 1
  simp only [one_mul, zero_add] at h1
  have e : (N - i) + i = N := by omega
  rw [e] at h1
  rw [List.range_eq_range', List.range_eq_range', ← h1]
  congr 1
  conv_lhs => rw [show N - i = (N - i - 1) + 1 by omega, List.range'_succ]

/-- Claim C8: if frames before i succeed and rendering or persistence of
frame i fails, the run's effect trace is exactly the image writes of frames
0..i-1 and contains no manifest write: the manifest is only ever written
after all view count frames succeed, so it never references a missing
image. -/
theorem claim8_abort (bv : BoundingVolume) (N : ℕ) (ok : ℕ → Bool) (i : ℕ)
    (hiN : i < N) (hok : ∀ j, j < i → ok j = true) (hfail : ok i = false) :
    render_glb_views bv N ok = (List.range i).map (fun j => Event.image (imgName j))
    ∧ ∀ M, Event.manifest M ∉ render_glb_views bv N ok := by
  have hrun : render_glb_views bv N ok = (List.range i).map fun j => Event.image (imgName j) := by
    rw [render_glb_views, range_split N i hiN,
      runLoop_append_fail bv N ok (List.range i) i _ (fun j hj => hok j (List.mem_range.mp hj))
        hfail]
    simp
  refine ⟨hrun, fun M hM => ?_⟩
  rw [hrun] at hM
  rcases List.mem_map.mp hM with ⟨j, _, hj⟩
  exact Event.noConfusion hj

/-- Claim C8, witness: a run of view count 1 whose only frame fails leaves no
image files and no manifest. -/
theorem claim8_abort_app :
    ((0 : ℕ) < 1 ∧ (∀ j : ℕ, j < 0 → (fun _ : ℕ => false) j = true)
      ∧ (fun _ : ℕ => false) 0 = false)
    ∧ render_glb_views ⟨⟨0, 0, 0⟩, 1⟩ 1 (fun _ => false)
        = (List.range 0).map (fun j => Event.image (imgName j))
    ∧ ∀ M, Event.manifest M ∉ render_glb_views ⟨⟨0, 0, 0⟩, 1⟩ 1 (fun _ => false) :=
  ⟨⟨Nat.one_pos, fun j hj => absurd hj (Nat.not_lt_zero j), rfl⟩,
   claim8_abort ⟨⟨0, 0, 0⟩, 1⟩ 1 (fun _ => false) 0 Nat.one_pos
     (fun j hj => absurd hj (Nat.not_lt_zero j)) rfl⟩

/-- Claim C6 (divergence, evaluated at the failing input): for an input
whose vertices are all identical (the loader's single-origin-vertex
fallback), the extent and camera distance are 0 and every camera position
coincides with the target center, so `look_at` normalizes a zero vector
(division by zero in the source); yet the pipeline performs no degeneracy
check: with a renderer that does not itself fail, it still renders every
frame and writes the manifest. -/
theorem claim6_no_degenerate_abort :
    (estimate ⟨0, 0, 0⟩ []).size = 0
    ∧ camera_distance (estimate ⟨0, 0, 0⟩ []) = 0
    ∧ (∀ N i, camera_pos (estimate ⟨0, 0, 0⟩ []) N i = (estimate ⟨0, 0, 0⟩ []).center)
    ∧ ((estimate ⟨0, 0, 0⟩ []).center.sub (camera_pos (estimate ⟨0, 0, 0⟩ []) 4 0)).norm = 0
    ∧ render_glb_views (estimate ⟨0, 0, 0⟩ []) 4 (fun _ => true)
        = ((List.range 4).map fun i => Event.image (imgName i))
          ++ [Event.manifest ⟨Real.pi / 3,
                (List.range 4).map fun i => frameRecord (estimate ⟨0, 0, 0⟩ []) 4 i⟩] := by
  have hsz : (estimate ⟨0, 0, 0⟩ []).size = 0 := by
    simp only [estimate, boundsMin, boundsMax, List.foldl_nil, Vec3.sub, Vec3.norm, Vec3.dot]
    norm_num
  have hpos : ∀ N i, camera_pos (estimate ⟨0, 0, 0⟩ []) N i = (estimate ⟨0, 0, 0⟩ []).center := by
    intro N i
    simp only [camera_pos, camera_distance, hsz]
    rw [Vec3.mk.injEq]
    refine ⟨by ring, by ring, by ring⟩
  refine ⟨hsz, by rw [camera_distance, hsz]; ring, hpos, ?_, ?_⟩
  · rw [hpos 4 0]
    simp only [Vec3.sub, Vec3.norm, Vec3.dot]
    norm_num
  · simp [render_glb_views, runLoop_all_true]

/-- `reshape(-1, 3)` of `arange` of a multiple of 3 yields the consecutive
triples starting at the given offset. -/
theorem chunk3_range'_three (m : ℕ) : ∀ a : ℕ,
    chunk3 (List.range' a (3 * m)) =
      some ((List.range m).map fun k => (a + 3 * k, a + 3 * k + 1, a + 3 * k + 2)) := by
  induction m with
  | zero => intro a; rfl
  | succ n ih =>
    intro a
    rw [show 3 * (n + 1) = (3 * n + 1 + 1) + 1 by ring, List.range'_succ, List.range'_succ,
      List.range'_succ]
    simp only [chunk3]
    rw [show a + 1 + 1 + 1 = a + 3 by ring, ih (a + 3)]
    rw [Option.map_some']
    congr 1
    rw [List.range_succ_eq_map, List.map_cons, List.map_map]
    congr 1
    apply List.map_congr_left
    intro k _
    simp only [Function.comp_apply]
    rw [Prod.mk.injEq, Prod.mk.injEq]
    omega

/-- `reshape(-1, 3)` of `arange` of a non-multiple of 3 fails. -/
theorem chunk3_range'_rem (m : ℕ) : ∀ a r : ℕ, r = 1 ∨ r = 2 →
    chunk3 (List.range' a (3 * m + r)) = none := by
  induction m with
  | zero =>
    intro a r hr
    rcases hr with h | h <;> subst h <;> rfl
  | succ n ih =>
    intro a r hr
    rw [show 3 * (n + 1) + r = ((3 * n + r) + 1 + 1) + 1 by ring, List.range'_succ,
      List.range'_succ, List.range'_succ]
    simp only [chunk3]
    rw [ih (a + 1 + 1 + 1) r hr, Option.map_none']

/-- Claim C10: the sequential-index fallback succeeds exactly when the vertex
count is divisible by 3, producing the face triples (3k, 3k+1, 3k+2) in
order, and fails otherwise; in particular applying it to the single-vertex
absent-position-buffer fallback always fails. -/
theorem claim10_sequential_fallback (n : ℕ) :
    (n % 3 = 0 →
      sequentialIndices n
        = some ((List.range (n / 3)).map fun k => (3 * k, 3 * k + 1, 3 * k + 2)))
    ∧ (n % 3 ≠ 0 → sequentialIndices n = none)
    ∧ sequentialIndices fallbackVertices.length = none := by
  refine ⟨?_, ?_, rfl⟩
  · intro h
    have e : List.range n = List.range' 0 (3 * (n / 3)) := by
      rw [List.range_eq_range']
      congr 1
      omega
    rw [sequentialIndices, e, chunk3_range'_three]
    congr 1
    apply List.map_congr_left
    intro k _
    rw [Prod.mk.injEq, Prod.mk.injEq]
    omega
  · intro h
    have e : List.range n = List.range' 0 (3 * (n / 3) + n % 3) := by
      rw [List.range_eq_range']
      congr 1
      omega
    rw [sequentialIndices, e, chunk3_range'_rem (n / 3) 0 (n % 3) (by omega)]

/-- Claim C10, witness: 6 vertices yield the two faces (0,1,2) and (3,4,5);
5 vertices make the fallback fail. -/
theorem claim10_sequential_fallback_app :
    ((6 : ℕ) % 3 = 0 ∧ sequentialIndices 6 = some [(0, 1, 2), (3, 4, 5)])
    ∧ ((5 : ℕ) % 3 ≠ 0 ∧ sequentialIndices 5 = none) := by
  have h6 := (claim10_sequential_fallback 6).1 rfl
  have h5 := (claim10_sequential_fallback 5).2.1 (by decide)
  refine ⟨⟨rfl, ?_⟩, ⟨by decide, h5⟩⟩
  rw [h6]
  rfl

end StreamXR
